import Mathlib

/-!
Shallow embedding of the decomposition-tree aggregation engine in
src/app_final_merged.py: cell values, rows, the pandas operations the
engine relies on (groupby with its default key sorting and NaN-key
dropping, numeric coercion, truncating int conversion, Python round),
the status classifiers, the KPI delay reductions, build_tree, and the
driver control flow around it.
-/

/-- A scalar cell value of the dataset: a string, a (rational-modelled)
number, or missing (pandas NaN/None/NaT). Timestamps only reach the
modelled code after being turned into label strings or missing values,
so they are covered by the str/missing cases. Numeric-looking strings
are modelled as strings (the claims never feed numeral strings to
pd.to_numeric). -/
inductive Value where
  | str : String → Value
  | num : ℚ → Value
  | missing : Value
deriving DecidableEq, Repr

/-- A row: an association list from column name to value
(a pandas row viewed through named access). -/
def Row : Type := List (String × Value)

instance : DecidableEq Row := by
  unfold Row
  infer_instance

/-- Column access, `row[col]`; a column absent from the row reads as
missing (the modelled fragments only access columns they know exist). -/
def Row.get (r : Row) (c : String) : Value :=
  match r.find? (fun p => p.1 = c) with
  | some p => p.2
  | none => Value.missing

/-- Column assignment, `df[col] = ...` applied rowwise. -/
def Row.set (r : Row) (c : String) (v : Value) : Row :=
  List.filter (fun p => p.1 ≠ c) r ++ [(c, v)]

/-- `pd.isna` on a scalar. -/
def Value.isna : Value → Bool
  | .missing => true
  | _ => false

/-- Numeric coercion with NaN fallback, `pd.to_numeric(-, errors="coerce")`
on a scalar, as a partial result: numbers pass through, anything else
becomes NaN (missing). -/
def Value.coerceNum : Value → Option ℚ
  | .num q => some q
  | _ => none

/-- Numeric coercion followed by `fillna(0)` / pandas NaN-skipping sum:
numbers pass through, everything else contributes 0. -/
def Value.toQ : Value → ℚ
  | .num q => q
  | _ => 0

/-- Python `int()` on a float: truncation toward zero. -/
def truncQ (q : ℚ) : ℤ :=
  if 0 ≤ q then ⌊q⌋ else ⌈q⌉

/-- Python `round()` to an integer: nearest integer, ties to even
(banker's rounding). -/
def pyRound (q : ℚ) : ℤ :=
  let f := ⌊q⌋
  if q - f < 1 / 2 then f
  else if 1 / 2 < q - f then f + 1
  else if f % 2 = 0 then f else f + 1

/-- Python `str()` on a cell value as it reaches the modelled code:
strings pass through; `str(nan)` is "nan"; a numeral rendering stands in
for `str` on numbers (no modelled claim inspects it). -/
def Value.pyStr : Value → String
  | .str s => s
  | .num q => toString q
  | .missing => "nan"

/-- Python string comparison: lexicographic on code points, a proper
prefix preceding its extensions. -/
def charListLtb : List Char → List Char → Bool
  | [], [] => false
  | [], _ :: _ => true
  | _ :: _, [] => false
  | a :: as, b :: bs =>
    if a < b then true else if b < a then false else charListLtb as bs

/-- Python `a < b` on strings. -/
def pyStrLt (a b : String) : Bool :=
  charListLtb a.toList b.toList

/-- Python `a <= b` on strings: the negation of the reverse strict
comparison. -/
def pyStrLe (a b : String) : Bool :=
  !charListLtb b.toList a.toList

/-- `s.split(" ")[0]`: the characters before the first space. -/
def firstToken (s : String) : String :=
  String.mk (s.toList.takeWhile (fun c => c ≠ ' '))

/-- calculate_week_status (src lines 133-153): Pending when either week
label is missing, otherwise the three-way lexical comparison of the
first space-separated token of the stringified labels. The except
branch of the source returns Pending, but no operation in the try body
can raise; the embedding is total by construction. -/
def calculate_week_status (r : Row) : String :=
  if (r.get "Planned_Week_Label").isna ∨ (r.get "Actual_Week_Label").isna then
    "Pending"
  else
    let planned_week := firstToken (r.get "Planned_Week_Label").pyStr
    let actual_week := firstToken (r.get "Actual_Week_Label").pyStr
    if planned_week = actual_week then "On-Time"
    else if pyStrLt actual_week planned_week then "Early"
    else "Delayed"

/-- calculate_month_status (src lines 155-175): same rule on the month
labels. -/
def calculate_month_status (r : Row) : String :=
  if (r.get "Planned_Month_Label").isna ∨ (r.get "Actual_Month_Label").isna then
    "Pending"
  else
    let planned_month := firstToken (r.get "Planned_Month_Label").pyStr
    let actual_month := firstToken (r.get "Actual_Month_Label").pyStr
    if planned_month = actual_month then "On-Time"
    else if pyStrLt actual_month planned_month then "Early"
    else "Delayed"

/-- The mean of a list of rationals (pandas Series.mean over a nonempty
selection). -/
def listMean (l : List ℚ) : ℚ :=
  l.sum / l.length

/-- The maximum of a list of rationals (pandas Series.max over a
nonempty selection), 0 on the empty list. -/
def listMax : List ℚ → ℚ
  | [] => 0
  | h :: t => t.foldl max h

/-- kpi_panel delay reductions (src lines 86-96): coerce Delay_Days to
numeric with errors="coerce", keep the non-missing values; avg and max
of the strictly positive ones, mean of the strictly negative ones, each
0 when its selection is empty. Returns (avg_delay, max_delay,
avg_early). -/
def kpiDelayStats (delays : List Value) : ℚ × ℚ × ℚ :=
  let nums := delays.filterMap Value.coerceNum
  let delayed_data := nums.filter (fun q => 0 < q)
  let early_data := nums.filter (fun q => q < 0)
  ( if delayed_data.isEmpty then 0 else listMean delayed_data,
    if delayed_data.isEmpty then 0 else listMax delayed_data,
    if early_data.isEmpty then 0 else listMean early_data )

/-- The displayed early-completion magnitude, `abs(avg_early)`
(src line 117). -/
def kpiAvgEarlyMag (delays : List Value) : ℚ :=
  |(kpiDelayStats delays).2.2|

/-- The ascending order pandas uses to sort group keys (groupby default
sort=True): numbers by numeric value, strings lexically by code point.
Missing keys are dropped before sorting, so their place in the order is
immaterial; cross-type comparisons (which pandas itself cannot sort)
are fixed arbitrarily as num before str. -/
def vle : Value → Value → Prop
  | .missing, _ => True
  | .num _, .missing => False
  | .str _, .missing => False
  | .num a, .num b => a ≤ b
  | .num _, .str _ => True
  | .str _, .num _ => False
  | .str a, .str b => pyStrLe a b = true

theorem charListLtb_irrefl (l : List Char) : charListLtb l l = false := by
  induction l with
  | nil => rfl
  | cons a as ih => simp [charListLtb, ih]

theorem charListLtb_trans : ∀ {a b c : List Char}, charListLtb a b = true →
    charListLtb b c = true → charListLtb a c = true := by
  intro a
  induction a with
  | nil =>
    intro b c h1 h2
    cases b with
    | nil => simp [charListLtb] at h1
    | cons y ys =>
      cases c with
      | nil => simp [charListLtb] at h2
      | cons z zs => simp [charListLtb]
  | cons x xs ih =>
    intro b c h1 h2
    cases b with
    | nil => simp [charListLtb] at h1
    | cons y ys =>
      cases c with
      | nil => simp [charListLtb] at h2
      | cons z zs =>
        simp only [charListLtb] at h1 h2 ⊢
        by_cases hxy : x < y
        · by_cases hyz : y < z
          · simp [lt_trans hxy hyz]
          · by_cases hzy : z < y
            · simp [hyz, hzy] at h2
            · have hyzeq : y = z := le_antisymm (le_of_not_lt hzy) (le_of_not_lt hyz)
              subst hyzeq
              simp [hxy]
        · by_cases hyx : y < x
          · simp [hxy, hyx] at h1
          · have hxyeq : x = y := le_antisymm (le_of_not_lt hyx) (le_of_not_lt hxy)
            subst hxyeq
            simp only [lt_self_iff_false, if_false, if_neg] at h1
            by_cases hxz : x < z
            · simp [hxz]
            · by_cases hzx : z < x
              · simp [hxz, hzx] at h2
              · have hxzeq : x = z := le_antisymm (le_of_not_lt hzx) (le_of_not_lt hxz)
                subst hxzeq
                simp only [lt_self_iff_false, if_false]
                simp only [lt_self_iff_false, if_false] at h2
                exact ih h1 h2

theorem charListLtb_tri : ∀ a b : List Char,
    charListLtb a b = true ∨ a = b ∨ charListLtb b a = true := by
  intro a
  induction a with
  | nil =>
    intro b
    cases b with
    | nil => simp
    | cons y ys => simp [charListLtb]
  | cons x xs ih =>
    intro b
    cases b with
    | nil => simp [charListLtb]
    | cons y ys =>
      simp only [charListLtb]
      by_cases hxy : x < y
      · simp [hxy]
      · by_cases hyx : y < x
        · simp [hxy, hyx]
        · have hxyeq : x = y := le_antisymm (le_of_not_lt hyx) (le_of_not_lt hxy)
          subst hxyeq
          simp only [lt_self_iff_false, if_false, List.cons.injEq, true_and]
          rcases ih ys with h | h | h
          · exact Or.inl h
          · exact Or.inr (Or.inl h)
          · exact Or.inr (Or.inr h)

theorem pyStrLe_total (a b : String) : pyStrLe a b = true ∨ pyStrLe b a = true := by
  unfold pyStrLe
  cases h1 : charListLtb b.toList a.toList with
  | false => exact Or.inl (by simp [h1])
  | true =>
    cases h2 : charListLtb a.toList b.toList with
    | false => exact Or.inr (by simp [h2])
    | true =>
      have h3 := charListLtb_trans h1 h2
      rw [charListLtb_irrefl] at h3
      exact absurd h3 (by simp)

theorem pyStrLe_trans {a b c : String} (h1 : pyStrLe a b = true)
    (h2 : pyStrLe b c = true) : pyStrLe a c = true := by
  unfold pyStrLe at h1 h2 ⊢
  simp only [Bool.not_eq_true'] at h1 h2 ⊢
  by_contra hca
  simp only [Bool.not_eq_false] at hca
  rcases charListLtb_tri a.toList b.toList with h | h | h
  · have := charListLtb_trans hca h
    rw [h2] at this
    exact absurd this (by simp)
  · rw [h] at hca
    rw [hca] at h2
    exact absurd h2 (by simp)
  · rw [h] at h1
    exact absurd h1 (by simp)

instance : DecidableRel vle := by
  intro a b
  cases a <;> cases b <;> simp only [vle] <;> infer_instance

instance : IsTotal Value vle := by
  constructor
  intro a b
  cases a <;> cases b <;> simp only [vle, true_or, or_true] <;>
    first
    | exact le_total _ _
    | exact pyStrLe_total _ _

instance : IsTrans Value vle := by
  constructor
  intro a b c h1 h2
  cases a <;> cases b <;> cases c <;> simp only [vle] at h1 h2 ⊢ <;>
    first
    | trivial
    | exact le_trans h1 h2
    | exact pyStrLe_trans h1 h2

/-- Deduplication keeping the first occurrence of each value not yet in
the accumulator of already-seen values. -/
def firstOccDedupAux : List Value → List Value → List Value
  | [], _ => []
  | v :: vs, seen =>
    if v ∈ seen then firstOccDedupAux vs seen
    else v :: firstOccDedupAux vs (v :: seen)

/-- Deduplication keeping the first occurrence of each value (the
pre-sort group enumeration of a grouping operation). -/
def firstOccDedup (l : List Value) : List Value :=
  firstOccDedupAux l []

/-- The values of a column across rows that are not missing: pandas
groupby with its default dropna=True never yields a NaN group key. -/
def nonMissingVals (rows : List Row) (col : String) : List Value :=
  (rows.map (fun r => r.get col)).filter (fun v => v ≠ Value.missing)

/-- The group keys of `rows.groupby(col)` in iteration order: the
distinct non-missing values of the column, sorted ascending (groupby
default sort=True). -/
def groupKeys (rows : List Row) (col : String) : List Value :=
  List.insertionSort vle (firstOccDedup (nonMissingVals rows col))

/-- `df_sub.groupby(col)` iteration (src lines 194 and 264): one
(key, group) pair per distinct non-missing key, keys ascending, each
group the subrows carrying that key in original row order. Rows whose
key is missing appear in no group. -/
def groupby (rows : List Row) (col : String) : List (Value × List Row) :=
  (groupKeys rows col).map (fun k => (k, rows.filter (fun r => r.get col = k)))

/-- The stringified group key of a node label (src lines 195 and 265):
the sentinel for a missing key, otherwise `str(val)`. With default
groupby the missing branch is unreachable. -/
def valStr (v : Value) : String :=
  if v.isna then "No Data" else v.pyStr

/-- One aggregate tree node (the dict built at src lines 241-252 and
308-319), restricted to the fields the claims mention; children = []
models the popped/absent children key of a leaf. -/
structure Node where
  name : String
  value : ℤ
  percentage : ℤ
  level : ℕ
  column : String
  node_value : String
  children : List Node
deriving Repr

/-- The aggregate value of a group (src lines 196 and 266):
`int(group[value_col].sum())` when a value column is set (pandas sum
skips missing; int() truncates toward zero), `int(len(group))`
otherwise. -/
def nodeValue (value_col : Option String) (group : List Row) : ℤ :=
  match value_col with
  | some c => truncQ ((group.map (fun r => (r.get c).toQ)).sum)
  | none => (group.length : ℤ)

/-- The percentage of a node (src lines 199-201 and 269-271):
round((value / total_count) * 100) against the fixed row count of the
whole dataset, 0 when the dataset is empty. -/
def pctOf (total_count : ℕ) (value : ℤ) : ℤ :=
  pyRound (if 0 < total_count then ((value : ℚ) / (total_count : ℚ)) * 100 else 0)

/-- The recursive node builder (build_tree's root loop at src lines
263-323 for level 0 and add_node at src lines 190-256 for deeper
levels; both build nodes the same way). One node per groupby group of
the current hierarchy column; children from the rest of the hierarchy
over the group's rows. -/
def buildNodes (value_col : Option String) (total_count : ℕ) :
    List String → ℕ → List Row → List Node
  | [], _, _ => []
  | col :: rest, level, rows =>
    (groupby rows col).map (fun kg =>
      { name := col ++ ": " ++ valStr kg.1
        value := nodeValue value_col kg.2
        percentage := pctOf total_count (nodeValue value_col kg.2)
        level := level
        column := col
        node_value := valStr kg.1
        children := buildNodes value_col total_count rest (level + 1) kg.2 })

/-- build_tree (src lines 186-324): total_count = len(df) fixed for the
whole tree; empty hierarchy returns [] (src lines 260-261); otherwise
the depth-0 nodes with their recursive children. -/
def build_tree (df : List Row) (hierarchy : List String) (value_col : Option String) :
    List Node :=
  match hierarchy with
  | [] => []
  | col :: rest => buildNodes value_col df.length (col :: rest) 0 df

/-- The dataset-total aggregate value under a value rule: the same
count-or-truncated-sum the engine stores per node, taken over the whole
dataset. -/
def datasetTotal (value_col : Option String) (df : List Row) : ℤ :=
  nodeValue value_col df

/-- The aggregation method chosen in the sidebar (src line 517), with
the selected value column for Sum/Average. -/
inductive AggMethod where
  | count : AggMethod
  | sum : String → AggMethod
  | average : String → AggMethod

/-- The value-column setup (src lines 518-525): Count writes a constant
1 column; Sum/Average write the numeric coercion of the chosen column
with NaN filled by 0; value_col is always the synthetic column. -/
def prepare (m : AggMethod) (df : List Row) : List Row × Option String :=
  match m with
  | .count => (df.map (fun r => r.set "__value__" (.num 1)), some "__value__")
  | .sum c => (df.map (fun r => r.set "__value__" (.num (r.get c).toQ)), some "__value__")
  | .average c => (df.map (fun r => r.set "__value__" (.num (r.get c).toQ)), some "__value__")

/-- True when every row of a nonempty dataset carries the column (the
rectangular-dataframe reading of `col in df.columns`). -/
def hasCol (df : List Row) (c : String) : Bool :=
  df.all (fun r => (r.find? (fun p => p.1 = c)).isSome)

/-- kpi_panel's effect on the dataframe it returns (src lines 38-45,
131): when Status and Delay_Days are present and the dataset is
nonempty, a Delay_Days_Numeric column holding the numeric coercion of
Delay_Days is added; otherwise the dataframe is unchanged. The KPI
display itself produces no data consumed by the tree. -/
def kpi_transform (df : List Row) : List Row :=
  if hasCol df "Status" && hasCol df "Delay_Days" && !df.isEmpty then
    df.map (fun r => r.set "Delay_Days_Numeric"
      (match (r.get "Delay_Days").coerceNum with
       | some q => Value.num q
       | none => Value.missing))
  else df

/-- The driver control flow around the engine (src lines 517-547):
value-column setup, kpi_panel, then the empty-hierarchy boundary check
(st.error + st.stop at src lines 529-542) BEFORE build_tree is invoked;
a non-empty hierarchy reaches build_tree. -/
def run_app (df : List Row) (hierarchy : List String) (m : AggMethod) :
    Except String (List Node) :=
  let p := prepare m df
  let df1 := kpi_transform p.1
  if hierarchy.isEmpty then
    Except.error "No columns selected for hierarchy!"
  else
    Except.ok (build_tree df1 hierarchy p.2)

mutual

/-- Node-wise universal quantification over a tree: P at the node and,
recursively, at every descendant. -/
def NodeAll (P : Node → Prop) : Node → Prop
  | ⟨name, value, percentage, level, column, node_value, children⟩ =>
    P ⟨name, value, percentage, level, column, node_value, children⟩ ∧
    NodeAllList P children

/-- NodeAll over every node of a list. -/
def NodeAllList (P : Node → Prop) : List Node → Prop
  | [] => True
  | c :: cs => NodeAll P c ∧ NodeAllList P cs

end

theorem nodeListAll_iff (P : Node → Prop) (l : List Node) :
    NodeAllList P l ↔ ∀ c ∈ l, NodeAll P c := by
  induction l with
  | nil => simp [NodeAllList]
  | cons c cs ih =>
    simp [NodeAllList, ih]

theorem firstOccDedupAux_mem (x : Value) : ∀ (l seen : List Value),
    x ∈ firstOccDedupAux l seen ↔ x ∈ l ∧ x ∉ seen := by
  intro l
  induction l with
  | nil => simp [firstOccDedupAux]
  | cons v vs ih =>
    intro seen
    by_cases hv : v ∈ seen
    · rw [firstOccDedupAux, if_pos hv, ih, List.mem_cons]
      constructor
      · rintro ⟨hx, hns⟩
        exact ⟨Or.inr hx, hns⟩
      · rintro ⟨rfl | hx, hns⟩
        · exact absurd hv hns
        · exact ⟨hx, hns⟩
    · rw [firstOccDedupAux, if_neg hv, List.mem_cons, List.mem_cons, ih]
      constructor
      · rintro (rfl | ⟨hx, hns⟩)
        · exact ⟨Or.inl rfl, hv⟩
        · simp only [List.mem_cons, not_or] at hns
          exact ⟨Or.inr hx, hns.2⟩
      · rintro ⟨rfl | hx, hns⟩
        · exact Or.inl rfl
        · by_cases hxv : x = v
          · exact Or.inl hxv
          · refine Or.inr ⟨hx, ?_⟩
            simp [hxv, hns]

theorem firstOccDedupAux_nodup : ∀ (l seen : List Value),
    (firstOccDedupAux l seen).Nodup := by
  intro l
  induction l with
  | nil => intro seen; simp [firstOccDedupAux]
  | cons v vs ih =>
    intro seen
    by_cases hv : v ∈ seen
    · simpa [firstOccDedupAux, if_pos hv] using ih seen
    · simp only [firstOccDedupAux, if_neg hv, List.nodup_cons]
      refine ⟨?_, ih (v :: seen)⟩
      rw [firstOccDedupAux_mem]
      rintro ⟨-, hns⟩
      exact hns (List.mem_cons_self v seen)

theorem firstOccDedup_mem (x : Value) (l : List Value) :
    x ∈ firstOccDedup l ↔ x ∈ l := by
  simp [firstOccDedup, firstOccDedupAux_mem]

theorem firstOccDedup_nodup (l : List Value) : (firstOccDedup l).Nodup :=
  firstOccDedupAux_nodup l []

theorem groupKeys_nodup (rows : List Row) (col : String) :
    (groupKeys rows col).Nodup :=
  ((List.perm_insertionSort vle _).nodup_iff).mpr (firstOccDedup_nodup _)

theorem groupKeys_mem {rows : List Row} {col : String} {r : Row}
    (hr : r ∈ rows) (hm : r.get col ≠ Value.missing) :
    r.get col ∈ groupKeys rows col := by
  rw [groupKeys, List.mem_insertionSort, firstOccDedup_mem, nonMissingVals,
    List.mem_filter]
  exact ⟨List.mem_map_of_mem _ hr, by simpa using hm⟩

theorem groupby_mem_rows {rows : List Row} {col : String} {kg : Value × List Row}
    (hkg : kg ∈ groupby rows col) {r : Row} (hr : r ∈ kg.2) : r ∈ rows := by
  rw [groupby, List.mem_map] at hkg
  obtain ⟨k, -, hk⟩ := hkg
  subst hk
  exact (List.mem_filter.mp hr).1

theorem sum_map_filter_add (f : Row → ℚ) (p : Row → Bool) (rows : List Row) :
    ((rows.filter p).map f).sum + ((rows.filter (fun r => !p r)).map f).sum =
      (rows.map f).sum := by
  induction rows with
  | nil => simp
  | cons r rs ih =>
    cases hp : p r <;>
      simp [List.filter_cons, hp, ← ih, add_comm, add_left_comm, add_assoc]

theorem keys_partition_sum (col : String) (f : Row → ℚ) :
    ∀ (ks : List Value) (rows : List Row), ks.Nodup →
      (∀ r ∈ rows, r.get col ∈ ks) →
      (ks.map (fun k => ((rows.filter (fun r => r.get col = k)).map f).sum)).sum =
        (rows.map f).sum := by
  intro ks
  induction ks with
  | nil =>
    intro rows _ hcov
    have hrows : rows = [] := by
      cases rows with
      | nil => rfl
      | cons r rs => exact absurd (hcov r (List.mem_cons_self r rs)) (by simp)
    subst hrows
    simp
  | cons k ks ih =>
    intro rows hnd hcov
    have hnd2 := List.nodup_cons.mp hnd
    have hstep : ∀ k2 ∈ ks, rows.filter (fun r => r.get col = k2) =
        (rows.filter (fun r => !(r.get col = k : Bool))).filter
          (fun r => r.get col = k2) := by
      intro k2 hk2
      rw [List.filter_filter]
      apply List.filter_congr
      intro r _
      by_cases hr : r.get col = k2
      · have hk2k : ¬ (k2 = k) := by
          intro hkk
          subst hkk
          exact hnd2.1 hk2
        simp [hr, hk2k]
      · simp [hr]
    have hcov2 : ∀ r ∈ rows.filter (fun r => !(r.get col = k : Bool)),
        r.get col ∈ ks := by
      intro r hr
      rw [List.mem_filter] at hr
      rcases List.mem_cons.mp (hcov r hr.1) with h | h
      · exact absurd (by simpa using h) (by simpa using hr.2)
      · exact h
    calc (((k :: ks).map
            (fun k2 => ((rows.filter (fun r => r.get col = k2)).map f).sum)).sum)
        = ((rows.filter (fun r => r.get col = k)).map f).sum +
            (ks.map (fun k2 => ((rows.filter
              (fun r => r.get col = k2)).map f).sum)).sum := by
          simp
      _ = ((rows.filter (fun r => r.get col = k)).map f).sum +
            (ks.map (fun k2 => (((rows.filter
              (fun r => !(r.get col = k : Bool))).filter
                (fun r => r.get col = k2)).map f).sum)).sum := by
          congr 2
          apply List.map_congr_left
          intro k2 hk2
          rw [hstep k2 hk2]
      _ = ((rows.filter (fun r => r.get col = k)).map f).sum +
            ((rows.filter (fun r => !(r.get col = k : Bool))).map f).sum := by
          rw [ih _ hnd2.2 hcov2]
      _ = (rows.map f).sum := sum_map_filter_add f _ rows

theorem groupby_sum {rows : List Row} {col : String}
    (hnm : ∀ r ∈ rows, r.get col ≠ Value.missing) (f : Row → ℚ) :
    ((groupby rows col).map (fun kg => (kg.2.map f).sum)).sum =
      (rows.map f).sum := by
  rw [groupby, List.map_map]
  exact keys_partition_sum col f (groupKeys rows col) rows
    (groupKeys_nodup rows col) (fun r hr => groupKeys_mem hr (hnm r hr))

theorem truncQ_intCast (z : ℤ) : truncQ (z : ℚ) = z := by
  rw [truncQ]
  by_cases h : (0 : ℚ) ≤ (z : ℚ)
  · rw [if_pos h, Int.floor_intCast]
  · rw [if_neg h, Int.ceil_intCast]

theorem intValued_sum {l : List ℚ} (h : ∀ x ∈ l, ∃ z : ℤ, x = (z : ℚ)) :
    ∃ z : ℤ, l.sum = (z : ℚ) := by
  induction l with
  | nil => exact ⟨0, by simp⟩
  | cons x xs ih =>
    obtain ⟨zx, hzx⟩ := h x (List.mem_cons_self x xs)
    obtain ⟨zs, hzs⟩ := ih (fun y hy => h y (List.mem_cons_of_mem x hy))
    exact ⟨zx + zs, by push_cast [List.sum_cons, hzx, hzs]; ring⟩

theorem pyRound_mem (q : ℚ) : pyRound q = ⌊q⌋ ∨ pyRound q = ⌊q⌋ + 1 := by
  simp only [pyRound]
  split_ifs <;> simp

theorem pyRound_nonneg {q : ℚ} (h : 0 ≤ q) : 0 ≤ pyRound q := by
  have hfl : 0 ≤ ⌊q⌋ := Int.floor_nonneg.mpr h
  rcases pyRound_mem q with h1 | h1 <;> omega

theorem pyRound_le_of_le {q : ℚ} {B : ℤ} (h : q ≤ (B : ℚ)) : pyRound q ≤ B := by
  have hfl : ⌊q⌋ ≤ B := by
    have h2 := Int.floor_le_floor h
    rwa [Int.floor_intCast] at h2
  rcases eq_or_lt_of_le hfl with hB | hB
  · have hqB : q = (B : ℚ) := le_antisymm h (by rw [← hB]; exact Int.floor_le q)
    have hfr : q - (⌊q⌋ : ℚ) = 0 := by rw [hqB, Int.floor_intCast]; ring
    simp only [pyRound]
    rw [if_pos (by rw [hfr]; norm_num)]
    exact le_of_eq hB
  · rcases pyRound_mem q with h1 | h1 <;> omega

theorem pctOf_nonneg {tc : ℕ} {v : ℤ} (h : 0 ≤ v) : 0 ≤ pctOf tc v := by
  rw [pctOf]
  split_ifs with htc
  · apply pyRound_nonneg
    have htc0 : (0 : ℚ) < tc := by exact_mod_cast htc
    have hv : (0 : ℚ) ≤ (v : ℚ) := by exact_mod_cast h
    positivity
  · exact pyRound_nonneg le_rfl

theorem pctOf_le_100 {tc : ℕ} {v : ℤ} (hv : v ≤ (tc : ℤ)) : pctOf tc v ≤ 100 := by
  rw [pctOf]
  split_ifs with htc
  · apply pyRound_le_of_le
    have htc0 : (0 : ℚ) < tc := by exact_mod_cast htc
    rw [div_mul_eq_mul_div, div_le_iff₀ htc0]
    have hvq : (v : ℚ) ≤ (tc : ℚ) := by exact_mod_cast hv
    have h100 := mul_le_mul_of_nonneg_right hvq (show (0 : ℚ) ≤ 100 by norm_num)
    push_cast
    linarith
  · exact pyRound_le_of_le (by norm_num)

theorem groupby_snd {rows : List Row} {col : String} {kg : Value × List Row}
    (hkg : kg ∈ groupby rows col) :
    kg.2 = rows.filter (fun r => r.get col = kg.1) := by
  rw [groupby, List.mem_map] at hkg
  obtain ⟨k, -, rfl⟩ := hkg
  rfl

theorem nodeValue_all_ones {g : List Row}
    (h1 : ∀ r ∈ g, r.get "__value__" = Value.num 1) :
    nodeValue (some "__value__") g = (g.length : ℤ) := by
  rw [nodeValue]
  have hmap : g.map (fun r => (r.get "__value__").toQ) = g.map (fun _ => (1 : ℚ)) := by
    apply List.map_congr_left
    intro r hr
    rw [h1 r hr]
    rfl
  rw [hmap, List.map_const', List.sum_replicate, nsmul_eq_mul, mul_one]
  have : ((g.length : ℚ)) = (((g.length : ℤ)) : ℚ) := by push_cast; rfl
  rw [this, truncQ_intCast]

theorem nodeValue_int {g : List Row} {vcol : String}
    (hint : ∀ r ∈ g, ∃ z : ℤ, r.get vcol = Value.num (z : ℚ)) :
    ((nodeValue (some vcol) g : ℤ) : ℚ) =
      (g.map (fun r => (r.get vcol).toQ)).sum := by
  obtain ⟨z, hz⟩ := intValued_sum (l := g.map (fun r => (r.get vcol).toQ)) (by
    intro x hx
    rw [List.mem_map] at hx
    obtain ⟨r, hr, rfl⟩ := hx
    obtain ⟨zr, hzr⟩ := hint r hr
    exact ⟨zr, by rw [hzr]; rfl⟩)
  rw [nodeValue, hz, truncQ_intCast]

theorem groupby_nodeValue_sum {rows2 : List Row} {col2 vcol : String}
    (hint : ∀ r ∈ rows2, ∃ z : ℤ, r.get vcol = Value.num (z : ℚ))
    (hnm : ∀ r ∈ rows2, r.get col2 ≠ Value.missing) :
    ((groupby rows2 col2).map (fun kg => nodeValue (some vcol) kg.2)).sum =
      nodeValue (some vcol) rows2 := by
  have hq : ((((groupby rows2 col2).map
      (fun kg => nodeValue (some vcol) kg.2)).sum : ℤ) : ℚ) =
      ((nodeValue (some vcol) rows2 : ℤ) : ℚ) := by
    rw [Int.cast_list_sum, List.map_map]
    have hgr : ∀ kg ∈ groupby rows2 col2,
        ((nodeValue (some vcol) kg.2 : ℤ) : ℚ) =
          (kg.2.map (fun r => (r.get vcol).toQ)).sum := by
      intro kg hkg
      exact nodeValue_int (fun r hr => hint r (groupby_mem_rows hkg hr))
    calc ((groupby rows2 col2).map
            (fun kg => ((nodeValue (some vcol) kg.2 : ℤ) : ℚ))).sum
        = ((groupby rows2 col2).map
            (fun kg => (kg.2.map (fun r => (r.get vcol).toQ)).sum)).sum := by
          congr 1
          exact List.map_congr_left hgr
      _ = (rows2.map (fun r => (r.get vcol).toQ)).sum := groupby_sum hnm _
      _ = ((nodeValue (some vcol) rows2 : ℤ) : ℚ) := (nodeValue_int hint).symm
  exact_mod_cast hq

theorem buildNodes_percentage (vc : Option String) (tc : ℕ) :
    ∀ (hier : List String) (level : ℕ) (rows : List Row),
      ∀ n ∈ buildNodes vc tc hier level rows,
        NodeAll (fun m => m.percentage = pctOf tc m.value) n := by
  intro hier
  induction hier with
  | nil =>
    intro level rows n hn
    simp [buildNodes] at hn
  | cons col rest ih =>
    intro level rows n hn
    rw [buildNodes, List.mem_map] at hn
    obtain ⟨kg, hkg, rfl⟩ := hn
    refine ⟨rfl, ?_⟩
    rw [nodeListAll_iff]
    intro c hc
    exact ih (level + 1) kg.2 c hc

theorem buildNodes_count_bounds (tc : ℕ) :
    ∀ (hier : List String) (level : ℕ) (rows : List Row),
      (∀ r ∈ rows, r.get "__value__" = Value.num 1) →
      rows.length ≤ tc →
      ∀ n ∈ buildNodes (some "__value__") tc hier level rows,
        NodeAll (fun m => 0 ≤ m.percentage ∧ m.percentage ≤ 100) n := by
  intro hier
  induction hier with
  | nil =>
    intro level rows _ _ n hn
    simp [buildNodes] at hn
  | cons col rest ih =>
    intro level rows hones hlen n hn
    rw [buildNodes, List.mem_map] at hn
    obtain ⟨kg, hkg, rfl⟩ := hn
    have hones2 : ∀ r ∈ kg.2, r.get "__value__" = Value.num 1 :=
      fun r hr => hones r (groupby_mem_rows hkg hr)
    have hlen2 : kg.2.length ≤ tc := by
      rw [groupby_snd hkg]
      exact le_trans (List.length_filter_le _ rows) hlen
    have hval : nodeValue (some "__value__") kg.2 = (kg.2.length : ℤ) :=
      nodeValue_all_ones hones2
    refine ⟨⟨?_, ?_⟩, ?_⟩
    · show 0 ≤ pctOf tc (nodeValue (some "__value__") kg.2)
      rw [hval]
      exact pctOf_nonneg (by positivity)
    · show pctOf tc (nodeValue (some "__value__") kg.2) ≤ 100
      rw [hval]
      exact pctOf_le_100 (by exact_mod_cast hlen2)
    · rw [nodeListAll_iff]
      intro c hc
      exact ih (level + 1) kg.2 hones2 hlen2 c hc

theorem buildNodes_conservation (vcol : String) (tc : ℕ) :
    ∀ (hier : List String) (level : ℕ) (rows : List Row),
      (∀ r ∈ rows, ∃ z : ℤ, r.get vcol = Value.num (z : ℚ)) →
      (∀ c ∈ hier, ∀ r ∈ rows, r.get c ≠ Value.missing) →
      ∀ n ∈ buildNodes (some vcol) tc hier level rows,
        NodeAll (fun m => m.children = [] ∨
          (m.children.map Node.value).sum = m.value) n := by
  intro hier
  induction hier with
  | nil =>
    intro level rows _ _ n hn
    simp [buildNodes] at hn
  | cons col rest ih =>
    intro level rows hint hnm n hn
    rw [buildNodes, List.mem_map] at hn
    obtain ⟨kg, hkg, rfl⟩ := hn
    have hint2 : ∀ r ∈ kg.2, ∃ z : ℤ, r.get vcol = Value.num (z : ℚ) :=
      fun r hr => hint r (groupby_mem_rows hkg hr)
    have hnm2 : ∀ c ∈ rest, ∀ r ∈ kg.2, r.get c ≠ Value.missing :=
      fun c hc r hr => hnm c (List.mem_cons_of_mem col hc) r (groupby_mem_rows hkg hr)
    refine ⟨?_, ?_⟩
    · show buildNodes (some vcol) tc rest (level + 1) kg.2 = [] ∨
        ((buildNodes (some vcol) tc rest (level + 1) kg.2).map Node.value).sum =
          nodeValue (some vcol) kg.2
      cases rest with
      | nil => exact Or.inl rfl
      | cons c2 rest2 =>
        right
        rw [buildNodes, List.map_map]
        have hproj : ((fun kg2 : Value × List Row =>
            nodeValue (some vcol) kg2.2)) = Node.value ∘ (fun kg2 : Value × List Row =>
            ({ name := c2 ++ ": " ++ valStr kg2.1
               value := nodeValue (some vcol) kg2.2
               percentage := pctOf tc (nodeValue (some vcol) kg2.2)
               level := level + 1
               column := c2
               node_value := valStr kg2.1
               children := buildNodes (some vcol) tc rest2 (level + 1 + 1) kg2.2 } : Node)) := rfl
        rw [← hproj]
        exact groupby_nodeValue_sum hint2
          (fun r hr => hnm2 c2 (List.mem_cons_self c2 rest2) r hr)
    · rw [nodeListAll_iff]
      intro c hc
      exact ih (level + 1) kg.2 hint2 hnm2 c hc

theorem takeWhile_eq_self_of_all {α : Type} (p : α → Bool) :
    ∀ (l : List α), (∀ a ∈ l, p a = true) → l.takeWhile p = l := by
  intro l
  induction l with
  | nil => intro _; rfl
  | cons a as ih =>
    intro h
    rw [List.takeWhile_cons, h a (List.mem_cons_self a as),
      ih (fun b hb => h b (List.mem_cons_of_mem a hb))]
    simp

theorem firstToken_eq_self {s : String} (h : ' ' ∉ s.toList) : firstToken s = s := by
  rw [firstToken, takeWhile_eq_self_of_all _ s.toList (by
    intro a ha
    simp only [decide_eq_true_eq]
    intro hsp
    exact h (hsp ▸ ha))]
  obtain ⟨d⟩ := s
  rfl

theorem Row.get_cons_self (c : String) (v : Value) (r : Row) :
    Row.get ((c, v) :: r) c = v := by
  rw [Row.get]
  simp [List.find?]

/-- The 3-row dataset in which every row's Region is missing. -/
def allNullRegionDf : List Row :=
  [[("Region", Value.missing)], [("Region", Value.missing)], [("Region", Value.missing)]]

/-- C1: the claim says all rows with a missing hierarchy-column value are
routed into one "No Data" node (for the 3-row all-null dataset: one
depth-0 node, aggregateValue 3, percentage 100). The code instead drops
every such row: df.groupby(col) with the pandas default dropna=True
yields no group for missing keys, so build_tree returns no nodes at all
and the "No Data" branch of val_str is unreachable. On the 3-row
all-null dataset the system returns an empty node list. -/
theorem c1_all_null_rows_dropped :
    run_app allNullRegionDf ["Region"] AggMethod.count = Except.ok [] ∧
    build_tree (prepare AggMethod.count allNullRegionDf).1 ["Region"]
      (prepare AggMethod.count allNullRegionDf).2 = [] := by
  constructor <;> rfl

/-- C9: for every dataset and aggregation method, running the system
with an empty hierarchy yields the reported configuration error (from
the boundary check that precedes the build_tree call), never a
successfully produced tree. -/
theorem c9_empty_hierarchy_error (df : List Row) (m : AggMethod) :
    run_app df [] m = Except.error "No columns selected for hierarchy!" ∧
    ∀ t : List Node, run_app df [] m ≠ Except.ok t := by
  refine ⟨rfl, ?_⟩
  intro t h
  rw [run_app] at h
  exact absurd h (by simp)

/-- C8 (amended): sibling nodes at the top of build_tree appear in the
groupby iteration order, which is the ASCENDING SORTED order of the
distinct non-missing group keys (pandas groupby default sort=True), not
their first-occurrence order. -/
theorem c8_siblings_sorted_amended (df : List Row) (col : String)
    (rest : List String) (vc : Option String) :
    (build_tree df (col :: rest) vc).map Node.node_value =
      (groupby df col).map (fun kg => valStr kg.1) ∧
    List.Sorted vle ((groupby df col).map Prod.fst) := by
  constructor
  · rw [build_tree, buildNodes, List.map_map]
    rfl
  · rw [groupby, List.map_map]
    have hid : (Prod.fst ∘ fun k : Value =>
        (k, df.filter (fun r => r.get col = k))) = id := rfl
    rw [hid, List.map_id]
    exact List.sorted_insertionSort vle _

/-- C3 (amended): the depth-0 aggregateValues of build_tree sum to the
dataset total, PROVIDED no row has a missing value in the first
hierarchy column (groupby drops such rows) and every row's value-column
entry is an integer (as under Count, where it is the constant 1;
int() truncation per group then loses nothing). -/
theorem c3_depth0_sum_amended (df : List Row) (col : String)
    (rest : List String) (vcol : String)
    (hint : ∀ r ∈ df, ∃ z : ℤ, r.get vcol = Value.num (z : ℚ))
    (hnm : ∀ r ∈ df, r.get col ≠ Value.missing) :
    ((build_tree df (col :: rest) (some vcol)).map Node.value).sum =
      datasetTotal (some vcol) df := by
  rw [build_tree, buildNodes, List.map_map]
  have hproj : (Node.value ∘ (fun kg : Value × List Row =>
      ({ name := col ++ ": " ++ valStr kg.1
         value := nodeValue (some vcol) kg.2
         percentage := pctOf df.length (nodeValue (some vcol) kg.2)
         level := 0
         column := col
         node_value := valStr kg.1
         children := buildNodes (some vcol) df.length rest (0 + 1) kg.2 } : Node))) =
      fun kg : Value × List Row => nodeValue (some vcol) kg.2 := rfl
  rw [hproj]
  exact groupby_nodeValue_sum hint hnm

/-- C4 (amended): for every node of the tree, the children's
aggregateValues sum to the node's own aggregateValue, PROVIDED no row
has a missing value in any hierarchy column (groupby drops such rows
from the children) and every row's value-column entry is an integer (as
under Count; int() truncation per group then loses nothing). -/
theorem c4_conservation_amended (df : List Row) (hierarchy : List String)
    (vcol : String)
    (hint : ∀ r ∈ df, ∃ z : ℤ, r.get vcol = Value.num (z : ℚ))
    (hnm : ∀ c ∈ hierarchy, ∀ r ∈ df, r.get c ≠ Value.missing) :
    ∀ n ∈ build_tree df hierarchy (some vcol),
      NodeAll (fun m => m.children = [] ∨
        (m.children.map Node.value).sum = m.value) n := by
  intro n hn
  cases hierarchy with
  | nil => simp [build_tree] at hn
  | cons col rest =>
    rw [build_tree] at hn
    exact buildNodes_conservation vcol df.length (col :: rest) 0 df hint hnm n hn

/-- C2 (amended): for EVERY value rule — Count and Sum alike — every
node's percentage is round(aggregateValue divided by the ROW COUNT of
the whole dataset, times 100): the denominator is len(df), not the
dataset-total aggregateValue, with 0 when the dataset is empty; when in
addition the value column is constantly 1 (as the Count setup makes it)
the percentage lies in [0, 100]. -/
theorem c2_percentage_amended (df : List Row) (hierarchy : List String)
    (vc : Option String) :
    ∀ n ∈ build_tree df hierarchy vc,
      NodeAll (fun m => m.percentage = pctOf df.length m.value) n ∧
      ((∀ r ∈ df, r.get "__value__" = Value.num 1) → vc = some "__value__" →
        NodeAll (fun m => 0 ≤ m.percentage ∧ m.percentage ≤ 100) n) := by
  intro n hn
  cases hierarchy with
  | nil => simp [build_tree] at hn
  | cons col rest =>
    rw [build_tree] at hn
    refine ⟨buildNodes_percentage vc df.length (col :: rest) 0 df n hn, ?_⟩
    intro hones hvc
    subst hvc
    exact buildNodes_count_bounds df.length (col :: rest) 0 df hones le_rfl n hn

/-- One-row Sum dataset with value 5. -/
def sumPctDf : List Row := [[("Region", Value.str "A"), ("V", Value.num 5)]]

set_option maxRecDepth 16384 in
/-- C2 counterexample: on a one-row dataset summed over V = 5, the
code's percentage is round(5 / 1 * 100) = 500 — the denominator is the
row count, not the dataset-total aggregateValue 5 — while the claim's
formula round(5 / 5 * 100) gives 100, and 500 is outside [0, 100]
despite all values being non-negative. -/
theorem c2_percentage_counterexample :
    (build_tree (prepare (AggMethod.sum "V") sumPctDf).1 ["Region"]
        (prepare (AggMethod.sum "V") sumPctDf).2).map Node.percentage = [500] ∧
    datasetTotal (prepare (AggMethod.sum "V") sumPctDf).2
      (prepare (AggMethod.sum "V") sumPctDf).1 = 5 ∧
    pyRound ((5 : ℚ) / 5 * 100) = 100 ∧
    ¬ ((500 : ℤ) ≤ 100) := by
  refine ⟨?_, ?_, ?_, by norm_num⟩
  · norm_num [sumPctDf, build_tree, buildNodes, groupby, groupKeys, nonMissingVals,
      firstOccDedup, firstOccDedupAux, List.insertionSort, List.orderedInsert, vle,
      pyStrLe, pyStrLt, charListLtb, prepare, nodeValue, truncQ, pctOf, pyRound, valStr,
      Value.isna, Value.pyStr, Value.toQ, Row.get, Row.set, List.find?, List.filter] <;>
    try simp <;> try norm_num [Int.ceil_neg, Int.fract_zero]
  · norm_num [sumPctDf, datasetTotal, prepare, nodeValue, truncQ, Value.toQ, Row.get,
      Row.set, List.find?, List.filter] <;>
    try simp <;> try norm_num [Int.ceil_neg, Int.fract_zero]
  · norm_num [pyRound]

/-- Two-row Count dataset: one Region present, one missing. -/
def c3df : List Row := [[("Region", Value.str "A")], [("Region", Value.missing)]]

set_option maxRecDepth 16384 in
/-- C3 counterexample: under Count on a 2-row dataset in which one row's
Region is missing, the depth-0 aggregateValues sum to 1 while the
dataset total aggregateValue is 2 — the missing-key row is dropped by
groupby and contributes to no depth-0 node. -/
theorem c3_depth0_sum_counterexample :
    ((build_tree (prepare AggMethod.count c3df).1 ["Region"]
        (prepare AggMethod.count c3df).2).map Node.value).sum = 1 ∧
    datasetTotal (prepare AggMethod.count c3df).2
      (prepare AggMethod.count c3df).1 = 2 ∧
    (1 : ℤ) ≠ 2 := by
  refine ⟨?_, ?_, by norm_num⟩
  · norm_num [c3df, build_tree, buildNodes, groupby, groupKeys, nonMissingVals,
      firstOccDedup, firstOccDedupAux, List.insertionSort, List.orderedInsert, vle,
      pyStrLe, pyStrLt, charListLtb, prepare, nodeValue, truncQ, pctOf, pyRound, valStr,
      Value.isna, Value.pyStr, Value.toQ, Row.get, Row.set, List.find?, List.filter] <;>
    try simp <;> try norm_num [Int.ceil_neg, Int.fract_zero]
  · norm_num [c3df, datasetTotal, prepare, nodeValue, truncQ, Value.toQ, Row.get,
      Row.set, List.find?, List.filter] <;>
    try simp <;> try norm_num [Int.ceil_neg, Int.fract_zero]

/-- Two-row two-level dataset: both rows share A = x; one row's B is
missing. -/
def c4df : List Row :=
  [[("A", Value.str "x"), ("B", Value.str "u")],
   [("A", Value.str "x"), ("B", Value.missing)]]

set_option maxRecDepth 16384 in
/-- C4 counterexample: under Count with hierarchy [A, B], the single
depth-0 node has aggregateValue 2 but its children sum to 1 — the row
with missing B is dropped from the child partition, so conservation
across levels fails. -/
theorem c4_conservation_counterexample :
    (build_tree (prepare AggMethod.count c4df).1 ["A", "B"]
        (prepare AggMethod.count c4df).2).map
      (fun n => (n.value, (n.children.map Node.value).sum)) = [(2, 1)] ∧
    ((2 : ℤ) ≠ (1 : ℤ)) := by
  refine ⟨?_, by norm_num⟩
  norm_num [c4df, build_tree, buildNodes, groupby, groupKeys, nonMissingVals,
    firstOccDedup, firstOccDedupAux, List.insertionSort, List.orderedInsert, vle,
    pyStrLe, pyStrLt, charListLtb, prepare, nodeValue, truncQ, pctOf, pyRound, valStr,
    Value.isna, Value.pyStr, Value.toQ, Row.get, Row.set, List.find?, List.filter] <;>
  try simp <;> try norm_num [Int.ceil_neg, Int.fract_zero]

/-- Two-row dataset whose Region values first occur in the order
B, A. -/
def c8df : List Row := [[("Region", Value.str "B")], [("Region", Value.str "A")]]

set_option maxRecDepth 16384 in
/-- C8 counterexample: the first-occurrence order of the distinct
Region values is [B, A], yet build_tree emits the sibling nodes in
sorted order [A, B] — groupby sorts group keys (sort=True default), so
sibling order is NOT insertion/first-occurrence order. -/
theorem c8_sorted_not_insertion_counterexample :
    firstOccDedup (nonMissingVals (prepare AggMethod.count c8df).1 "Region") =
      [Value.str "B", Value.str "A"] ∧
    (build_tree (prepare AggMethod.count c8df).1 ["Region"]
        (prepare AggMethod.count c8df).2).map Node.node_value = ["A", "B"] ∧
    (["A", "B"] : List String) ≠ ["B", "A"] := by
  refine ⟨?_, ?_, by decide⟩
  · norm_num [c8df, prepare, nonMissingVals, firstOccDedup, firstOccDedupAux,
      Row.get, Row.set, List.find?, List.filter] <;>
    try simp <;> try decide
  · norm_num [c8df, build_tree, buildNodes, groupby, groupKeys, nonMissingVals,
      firstOccDedup, firstOccDedupAux, List.insertionSort, List.orderedInsert, vle,
      pyStrLe, pyStrLt, charListLtb, prepare, nodeValue, truncQ, pctOf, pyRound, valStr,
      Value.isna, Value.pyStr, Value.toQ, Row.get, Row.set, List.find?, List.filter] <;>
    try simp <;> try norm_num [Int.ceil_neg, Int.fract_zero]

/-- Four-row Sum dataset with fractional values: group A sums to 2.7,
group B sums to -0.1. -/
def c10df : List Row :=
  [[("Region", Value.str "A"), ("V", Value.num 1.3)],
   [("Region", Value.str "A"), ("V", Value.num 1.4)],
   [("Region", Value.str "B"), ("V", Value.num 1.2)],
   [("Region", Value.str "B"), ("V", Value.num (-1.3))]]

set_option maxRecDepth 16384 in
/-- C10: every node's stored value is int(sum) — the truncation toward
zero of its group's value sum — in general, and concretely a group
summing to 2.7 stores 2 while a group summing to -0.1 stores 0 (toward
zero; a floor would store -1), so non-integral sums carry the truncated
integer. -/
theorem c10_sum_truncated_toward_zero :
    (∀ (df : List Row) (col : String) (rest : List String) (c : String),
      (build_tree df (col :: rest) (some c)).map Node.value =
        (groupby df col).map
          (fun kg => truncQ ((kg.2.map (fun r => (r.get c).toQ)).sum))) ∧
    (build_tree (prepare (AggMethod.sum "V") c10df).1 ["Region"]
        (prepare (AggMethod.sum "V") c10df).2).map Node.value = [2, 0] ∧
    ((13 : ℚ) / 10 + 7 / 5 = 27 / 10) ∧ truncQ (27 / 10) = 2 ∧
    ((6 : ℚ) / 5 + (-(13 / 10)) = -(1 / 10)) ∧ truncQ (-(1 / 10)) = 0 ∧
    ⌊(-(1 / 10) : ℚ)⌋ = -1 := by
  refine ⟨?_, ?_, by norm_num, by norm_num [truncQ], by norm_num,
    by norm_num [truncQ, Int.ceil_neg], by norm_num⟩
  · intro df col rest c
    rw [build_tree, buildNodes, List.map_map]
    rfl
  · norm_num [c10df, build_tree, buildNodes, groupby, groupKeys, nonMissingVals,
      firstOccDedup, firstOccDedupAux, List.insertionSort, List.orderedInsert, vle,
      pyStrLe, pyStrLt, charListLtb, prepare, nodeValue, truncQ, pctOf, pyRound, valStr,
      Value.isna, Value.pyStr, Value.toQ, Row.get, Row.set, List.find?, List.filter,
      Int.ceil_neg] <;>
    try simp <;> try norm_num [Int.ceil_neg, Int.fract_zero]

/-- C5: the week classifier applies the three-way lexical rule to the
week labels (space-free week labels compare whole): equal labels give
On-Time, a lexically smaller actual label gives Early, a larger one
gives Delayed, and a missing planned or actual label gives Pending. -/
theorem c5_week_status_rule (p a : String)
    (hp : ' ' ∉ p.toList) (ha : ' ' ∉ a.toList) :
    calculate_week_status
        [("Planned_Week_Label", Value.str p), ("Actual_Week_Label", Value.str a)] =
      (if p = a then "On-Time" else if pyStrLt a p then "Early" else "Delayed") ∧
    calculate_week_status [("Planned_Week_Label", Value.str p)] = "Pending" ∧
    calculate_week_status [("Actual_Week_Label", Value.str a)] = "Pending" := by
  refine ⟨?_, ?_, ?_⟩
  · simp [calculate_week_status, Row.get, List.find?, Value.isna, Value.pyStr,
      firstToken_eq_self hp, firstToken_eq_self ha]
  · simp [calculate_week_status, Row.get, List.find?, Value.isna]
  · simp [calculate_week_status, Row.get, List.find?, Value.isna]

/-- C5 witness: the rule at the claim's concrete label pairs. -/
theorem c5_week_status_rule_witness :
    calculate_week_status [("Planned_Week_Label", Value.str "2024-W01"),
      ("Actual_Week_Label", Value.str "2024-W01")] = "On-Time" ∧
    calculate_week_status [("Planned_Week_Label", Value.str "2024-W01"),
      ("Actual_Week_Label", Value.str "2024-W03")] = "Delayed" ∧
    calculate_week_status [("Planned_Week_Label", Value.str "2024-W03"),
      ("Actual_Week_Label", Value.str "2024-W01")] = "Early" ∧
    calculate_week_status [("Planned_Week_Label", Value.str "2024-W01")] = "Pending" := by
  have h1 := c5_week_status_rule "2024-W01" "2024-W01" (by decide) (by decide)
  have h2 := c5_week_status_rule "2024-W01" "2024-W03" (by decide) (by decide)
  have h3 := c5_week_status_rule "2024-W03" "2024-W01" (by decide) (by decide)
  refine ⟨?_, ?_, ?_, h2.2.1⟩
  · rw [h1.1]
    decide
  · rw [h2.1]
    decide
  · rw [h3.1]
    decide

/-- C6: week- and month-granularity classification is a total function
whose result is always one of the four statuses — it can never raise or
abort — and a row whose planned or actual label is missing (which is
what an unparseable timestamp becomes upstream via errors="coerce")
degrades to Pending, whatever the rest of the row holds. -/
theorem c6_classification_total (r : Row) :
    (calculate_week_status r = "Pending" ∨ calculate_week_status r = "On-Time" ∨
      calculate_week_status r = "Early" ∨ calculate_week_status r = "Delayed") ∧
    (calculate_month_status r = "Pending" ∨ calculate_month_status r = "On-Time" ∨
      calculate_month_status r = "Early" ∨ calculate_month_status r = "Delayed") ∧
    calculate_week_status (("Planned_Week_Label", Value.missing) :: r) = "Pending" ∧
    calculate_week_status (("Actual_Week_Label", Value.missing) :: r) = "Pending" ∧
    calculate_month_status (("Planned_Month_Label", Value.missing) :: r) = "Pending" ∧
    calculate_month_status (("Actual_Month_Label", Value.missing) :: r) = "Pending" := by
  refine ⟨?_, ?_, ?_, ?_, ?_, ?_⟩
  · simp only [calculate_week_status]
    split_ifs <;> simp
  · simp only [calculate_month_status]
    split_ifs <;> simp
  · rw [calculate_week_status, if_pos (Or.inl (by rw [Row.get_cons_self]; rfl))]
  · rw [calculate_week_status, if_pos (Or.inr (by rw [Row.get_cons_self]; rfl))]
  · rw [calculate_month_status, if_pos (Or.inl (by rw [Row.get_cons_self]; rfl))]
  · rw [calculate_month_status, if_pos (Or.inr (by rw [Row.get_cons_self]; rfl))]

/-- C7: the KPI delay reductions — on the claim's example [5, -2, 0,
10, null] the mean of the strictly positive values is 7.5, their max is
10 and the mean magnitude of the strictly negative values is 2; and
whenever the positive (resp. negative) selection is empty, the
corresponding reductions are 0, not an error. When a selection is
nonempty the reductions are exactly its mean / max / mean magnitude. -/
theorem c7_kpi_reductions (delays : List Value) :
    kpiDelayStats [Value.num 5, Value.num (-2), Value.num 0, Value.num 10,
      Value.missing] = (15 / 2, 10, -2) ∧
    kpiAvgEarlyMag [Value.num 5, Value.num (-2), Value.num 0, Value.num 10,
      Value.missing] = 2 ∧
    ((delays.filterMap Value.coerceNum).filter (fun q => 0 < q) = [] →
      (kpiDelayStats delays).1 = 0 ∧ (kpiDelayStats delays).2.1 = 0) ∧
    ((delays.filterMap Value.coerceNum).filter (fun q => q < 0) = [] →
      (kpiDelayStats delays).2.2 = 0 ∧ kpiAvgEarlyMag delays = 0) ∧
    ((delays.filterMap Value.coerceNum).filter (fun q => 0 < q) ≠ [] →
      (kpiDelayStats delays).1 =
        listMean ((delays.filterMap Value.coerceNum).filter (fun q => 0 < q)) ∧
      (kpiDelayStats delays).2.1 =
        listMax ((delays.filterMap Value.coerceNum).filter (fun q => 0 < q))) ∧
    ((delays.filterMap Value.coerceNum).filter (fun q => q < 0) ≠ [] →
      kpiAvgEarlyMag delays =
        |listMean ((delays.filterMap Value.coerceNum).filter (fun q => q < 0))|) := by
  refine ⟨?_, ?_, ?_, ?_, ?_, ?_⟩
  · norm_num [kpiDelayStats, listMean, listMax, Value.coerceNum, List.filterMap,
      List.filter] <;> try simp <;> try norm_num
  · norm_num [kpiAvgEarlyMag, kpiDelayStats, listMean, listMax, Value.coerceNum,
      List.filterMap, List.filter] <;> try simp <;> try norm_num
  · intro h
    simp [kpiDelayStats, h]
  · intro h
    simp [kpiAvgEarlyMag, kpiDelayStats, h]
  · intro h
    simp [kpiDelayStats, List.isEmpty_iff, h]
  · intro h
    simp [kpiAvgEarlyMag, kpiDelayStats, List.isEmpty_iff, h]

/-- C7 witness: on a dataset whose delay column is entirely missing,
all three reductions are 0. -/
theorem c7_kpi_reductions_witness :
    (kpiDelayStats [Value.missing]).1 = 0 ∧ (kpiDelayStats [Value.missing]).2.1 = 0 ∧
    (kpiDelayStats [Value.missing]).2.2 = 0 ∧ kpiAvgEarlyMag [Value.missing] = 0 := by
  have h := c7_kpi_reductions [Value.missing]
  have h1 := h.2.2.1 (by rfl)
  have h2 := h.2.2.2.1 (by rfl)
  exact ⟨h1.1, h1.2, h2.1, h2.2⟩

/-- One-row raw dataset for the C2 witness. -/
def c2wDf : List Row := [[("Region", Value.str "A")]]

set_option maxRecDepth 16384 in
/-- C2 witness: the amended percentage law instantiated on the sole
node of a one-row SUM dataset (the row-count-denominator formula there
gives percentage 500 = pctOf 1 5) and on the sole node of a one-row
Count dataset (the [0, 100] bound). -/
theorem c2_percentage_amended_witness :
    NodeAll (fun m => m.percentage = pctOf 1 m.value)
      { name := "Region: A", value := 5, percentage := 500, level := 0,
        column := "Region", node_value := "A", children := [] } ∧
    NodeAll (fun m => 0 ≤ m.percentage ∧ m.percentage ≤ 100)
      { name := "Region: A", value := 1, percentage := 100, level := 0,
        column := "Region", node_value := "A", children := [] } := by
  constructor
  · have heval : build_tree (prepare (AggMethod.sum "V") sumPctDf).1 ["Region"]
        (prepare (AggMethod.sum "V") sumPctDf).2 =
        [{ name := "Region: A", value := 5, percentage := 500, level := 0,
           column := "Region", node_value := "A", children := [] }] := by
      norm_num [sumPctDf, build_tree, buildNodes, groupby, groupKeys, nonMissingVals,
        firstOccDedup, firstOccDedupAux, List.insertionSort, List.orderedInsert, vle,
        pyStrLe, pyStrLt, charListLtb, prepare, nodeValue, truncQ, pctOf, pyRound,
        valStr, Value.isna, Value.pyStr, Value.toQ, Row.get, Row.set, List.find?,
        List.filter] <;>
      try simp [vle, pyStrLe, pyStrLt, charListLtb, valStr, Value.isna, Value.pyStr,
        nodeValue, truncQ, pctOf, pyRound, Value.toQ, Row.get, List.find?] <;>
      try norm_num [Int.ceil_neg, Int.fract_zero]
    have hlen : (prepare (AggMethod.sum "V") sumPctDf).1.length = 1 := by rfl
    have h := c2_percentage_amended (prepare (AggMethod.sum "V") sumPctDf).1 ["Region"]
      (prepare (AggMethod.sum "V") sumPctDf).2
      { name := "Region: A", value := 5, percentage := 500, level := 0,
        column := "Region", node_value := "A", children := [] }
      (by rw [heval]; exact List.mem_singleton_self _)
    rw [hlen] at h
    exact h.1
  · have hones : ∀ r ∈ (prepare AggMethod.count c2wDf).1,
        r.get "__value__" = Value.num 1 := by
      intro r hr
      simp only [prepare, c2wDf, List.map_cons, List.map_nil, List.mem_cons,
        List.not_mem_nil, or_false] at hr
      subst hr
      decide
    have heval : build_tree (prepare AggMethod.count c2wDf).1 ["Region"]
        (prepare AggMethod.count c2wDf).2 =
        [{ name := "Region: A", value := 1, percentage := 100, level := 0,
           column := "Region", node_value := "A", children := [] }] := by
      norm_num [c2wDf, build_tree, buildNodes, groupby, groupKeys, nonMissingVals,
        firstOccDedup, firstOccDedupAux, List.insertionSort, List.orderedInsert, vle,
        pyStrLe, pyStrLt, charListLtb, prepare, nodeValue, truncQ, pctOf, pyRound,
        valStr, Value.isna, Value.pyStr, Value.toQ, Row.get, Row.set, List.find?,
        List.filter] <;>
      try simp <;> try norm_num [Int.ceil_neg, Int.fract_zero]
    have hlen : (prepare AggMethod.count c2wDf).1.length = 1 := by rfl
    have h := c2_percentage_amended (prepare AggMethod.count c2wDf).1 ["Region"]
      (prepare AggMethod.count c2wDf).2
      { name := "Region: A", value := 1, percentage := 100, level := 0,
        column := "Region", node_value := "A", children := [] }
      (by rw [heval]; exact List.mem_singleton_self _)
    rw [hlen] at h
    exact h.2 hones rfl

/-- One-row dataset with an integer value column for the C3 witness. -/
def c3wDf : List Row := [[("Region", Value.str "A"), ("V", Value.num 2)]]

/-- C3 witness: the amended depth-0 conservation law instantiated on a
one-row Sum dataset with integer value 2 and no missing keys. -/
theorem c3_depth0_sum_amended_witness :
    ((build_tree c3wDf ["Region"] (some "V")).map Node.value).sum =
      datasetTotal (some "V") c3wDf := by
  apply c3_depth0_sum_amended c3wDf "Region" [] "V"
  · intro r hr
    simp only [c3wDf, List.mem_cons, List.not_mem_nil, or_false] at hr
    subst hr
    exact ⟨2, by simp [Row.get, List.find?]⟩
  · intro r hr
    simp only [c3wDf, List.mem_cons, List.not_mem_nil, or_false] at hr
    subst hr
    decide

/-- Two-row two-level dataset with an integer value column and no
missing keys, for the C4 witness. -/
def c4wDf : List Row :=
  [[("A", Value.str "x"), ("B", Value.str "u"), ("V", Value.num 1)],
   [("A", Value.str "x"), ("B", Value.str "v"), ("V", Value.num 1)]]

set_option maxRecDepth 16384 in
/-- C4 witness: the amended conservation law instantiated on the root
node of a two-level tree in which both provisos hold; the root's two
children (value 1 each) sum to the root's value 2. -/
theorem c4_conservation_amended_witness :
    NodeAll (fun m => m.children = [] ∨ (m.children.map Node.value).sum = m.value)
      { name := "A: x", value := 2, percentage := 100, level := 0, column := "A",
        node_value := "x",
        children :=
          [{ name := "B: u", value := 1, percentage := 50, level := 1, column := "B",
             node_value := "u", children := [] },
           { name := "B: v", value := 1, percentage := 50, level := 1, column := "B",
             node_value := "v", children := [] }] } := by
  have heval : build_tree c4wDf ["A", "B"] (some "V") =
      [{ name := "A: x", value := 2, percentage := 100, level := 0, column := "A",
         node_value := "x",
         children :=
           [{ name := "B: u", value := 1, percentage := 50, level := 1, column := "B",
              node_value := "u", children := [] },
            { name := "B: v", value := 1, percentage := 50, level := 1, column := "B",
              node_value := "v", children := [] }] }] := by
    norm_num [c4wDf, build_tree, buildNodes, groupby, groupKeys, nonMissingVals,
      firstOccDedup, firstOccDedupAux, List.insertionSort, List.orderedInsert, vle,
      pyStrLe, pyStrLt, charListLtb, nodeValue, truncQ, pctOf, pyRound, valStr,
      Value.isna, Value.pyStr, Value.toQ, Row.get, Row.set, List.find?, List.filter] <;>
    try simp [vle, pyStrLe, pyStrLt, charListLtb, valStr, Value.isna, Value.pyStr,
      nodeValue, truncQ, pctOf, pyRound, Value.toQ, Row.get, List.find?] <;>
    try norm_num [Int.ceil_neg, Int.fract_zero]
  apply c4_conservation_amended c4wDf ["A", "B"] "V"
  · intro r hr
    simp only [c4wDf, List.mem_cons, List.not_mem_nil, or_false] at hr
    rcases hr with rfl | rfl
    · exact ⟨1, by simp [Row.get, List.find?]⟩
    · exact ⟨1, by simp [Row.get, List.find?]⟩
  · intro c hc r hr
    simp only [List.mem_cons, List.not_mem_nil, or_false] at hc
    simp only [c4wDf, List.mem_cons, List.not_mem_nil, or_false] at hr
    rcases hc with rfl | rfl <;> rcases hr with rfl | rfl <;> decide
  · rw [heval]
    exact List.mem_singleton_self _
